import Mathlib

/-!
Verification of the stream-analyzer repository: a shallow embedding of the
event parser (internal/models, `PostPayload.UnmarshalJSON`, `extractTimestamp`,
`GetDimensionValue`) and of the aggregation pipeline
(internal/services/analyzer.go: `newAggregator`, `processPost`, `getResult`,
`computeAnalysis`, `AnalyzePosts`) and of the connection phase of
`ReadEvents` (internal/services/stream.go), together with theorems settling
the specification claims.

JSON numbers decoded into Go `interface{}` are float64; this embedding models
the numeric values occurring in the feed as integers (every integer-valued
float64 in the exactly-representable range), and models the float64
arithmetic of `getResult` exactly, as correctly-rounded rational arithmetic
restricted to the IEEE-754 binary64 normal range (the only range reachable
from the accumulator types involved: no subnormals, no overflow).
-/

mutual
/-- A decoded JSON value, as Go's `encoding/json` produces into `interface{}`:
numbers (float64, integer-valued here), strings, booleans, null, arrays and
objects.  Arrays and objects are mutual inductives rather than nested `List`s
so that all functions over them are structural recursions. -/
inductive JValue where
  | jnum (n : Int)
  | jstr (s : String)
  | jbool (b : Bool)
  | jnull
  | jarr (xs : JList)
  | jobj (fs : JEntries)

/-- A JSON array's element list. -/
inductive JList where
  | nil
  | cons (v : JValue) (tl : JList)

/-- A JSON object's field list, in textual order (duplicates possible). -/
inductive JEntries where
  | nil
  | cons (k : String) (v : JValue) (tl : JEntries)
end

/-- The fields of a JSON object as an ordinary association list. -/
def JEntries.toList : JEntries → List (String × JValue)
  | .nil => []
  | .cons k v tl => (k, v) :: tl.toList

/-- Association-list lookup, first match wins (Go map read after dedup). -/
def lookupKey (k : String) : List (String × JValue) → Option JValue
  | [] => none
  | (k', v) :: rest => if k' = k then some v else lookupKey k rest

/-- Store a key into an association list, overwriting an existing entry
(Go map write: the later duplicate key of a JSON object wins). -/
def insertEntry (k : String) (v : JValue) : List (String × JValue) → List (String × JValue)
  | [] => [(k, v)]
  | (k', v') :: rest => if k' = k then (k', v) :: rest else (k', v') :: insertEntry k v rest

/-- The Go map obtained by decoding a JSON object's fields in textual order:
duplicate keys collapse, the later value wins. -/
def dedupKeys (fs : List (String × JValue)) : List (String × JValue) :=
  fs.foldl (fun acc kv => insertEntry kv.1 kv.2 acc) []

/-- Decimal digit characters of a positive natural, most significant first;
the first argument is recursion fuel (any fuel at least the digit count works,
and the number itself is always enough). -/
def natDigitsAux : Nat → Nat → List Char
  | 0, _ => []
  | fuel + 1, n => if n = 0 then [] else natDigitsAux fuel (n / 10) ++ [Char.ofNat (48 + n % 10)]

/-- Decimal rendering of a natural number. -/
def natDecimal (n : Nat) : String :=
  if n = 0 then "0" else String.mk (natDigitsAux n n)

/-- Decimal rendering of an integer (Go `fmt` `%.0f` of an integer-valued
float64 in the exactly-representable range). -/
def intDecimal (i : Int) : String :=
  if i < 0 then "-" ++ natDecimal i.natAbs else natDecimal i.natAbs

/-- Value of a decimal digit character, `none` for a non-digit
(`strconv` accepts only `0`-`9` in base 10, no signs, no underscores). -/
def digitVal (c : Char) : Option Nat :=
  if '0' ≤ c ∧ c ≤ '9' then some (c.toNat - 48) else none

/-- Accumulate a digit string left to right; fails on any non-digit. -/
def parseDigitsAux : List Char → Nat → Option Nat
  | [], acc => some acc
  | c :: cs, acc =>
    match digitVal c with
    | some d => parseDigitsAux cs (acc * 10 + d)
    | none => none

/-- Go `strconv.ParseUint(s, 10, 64)`: a non-empty all-digit string whose
value fits in 64 bits; anything else (signs included) is an error. -/
def parseUint64 (s : String) : Option Nat :=
  match s.toList with
  | [] => none
  | cs =>
    match parseDigitsAux cs 0 with
    | some v => if v < 2 ^ 64 then some v else none
    | none => none

/-- Digits after an optional sign for `ParseInt`. -/
def parseInt64Digits (cs : List Char) (neg : Bool) : Option Int :=
  match cs with
  | [] => none
  | _ =>
    match parseDigitsAux cs 0 with
    | none => none
    | some v =>
      if neg then if v ≤ 2 ^ 63 then some (-(v : Int)) else none
      else if v < 2 ^ 63 then some (v : Int) else none

/-- Go `strconv.ParseInt(s, 10, 64)`: optional sign, digits, result within
the signed 64-bit range. -/
def parseInt64 (s : String) : Option Int :=
  match s.toList with
  | [] => none
  | c :: cs =>
    if c = '+' then parseInt64Digits cs false
    else if c = '-' then parseInt64Digits cs true
    else parseInt64Digits (c :: cs) false

/-- Join rendered pieces with single spaces, as Go `fmt` does inside
slice and map renderings. -/
def joinSpace (parts : List String) : String :=
  String.intercalate " " parts

/-- Strip trailing zero digits (shortest float mantissa). -/
def stripTrailingZeros (cs : List Char) : List Char :=
  (cs.reverse.dropWhile (fun c => c = '0')).reverse

/-- Go `fmt` `%v` of a float64 with integer value `i` (shortest `%g` form):
plain decimal up to six digits, otherwise scientific notation with the
shortest mantissa and a two-or-more-digit exponent, e.g. `1e+06`,
`5.5475432e+07`.  JSON numbers land in `interface{}` as float64, so this is
the rendering `GetDimensionValue` parses. -/
def goFormatFloatInt (i : Int) : String :=
  let sign := if i < 0 then "-" else ""
  let n := i.natAbs
  if n = 0 then "0"
  else
    let ds := natDigitsAux n n
    if ds.length ≤ 6 then sign ++ String.mk ds
    else
      let t := stripTrailingZeros ds
      let mant :=
        match t with
        | [] => "0"
        | c :: rest => if rest.isEmpty then String.mk [c] else String.mk [c] ++ "." ++ String.mk rest
      let e := ds.length - 1
      let es := if e < 10 then "0" ++ natDecimal e else natDecimal e
      sign ++ mant ++ "e+" ++ es

mutual
/-- Go `fmt.Sprintf` with verb `%v` of a decoded JSON value held in an
`interface{}`: float64s in shortest `%g` form, strings bare, booleans as
`true`/`false`, nil as `<nil>`, slices as `[a b]`, maps as `map[k:v]`.
(Go prints map keys sorted; entry order is kept abstract here — every map
rendering starts with `map[` and therefore never parses as an integer,
which is all that downstream code observes.) -/
def formatV : JValue → String
  | .jnum n => goFormatFloatInt n
  | .jstr s => s
  | .jbool b => cond b "true" "false"
  | .jnull => "<nil>"
  | .jarr xs => "[" ++ joinSpace (formatList xs) ++ "]"
  | .jobj fs => "map[" ++ joinSpace (formatEntries fs) ++ "]"

/-- Renderings of a JSON array's elements. -/
def formatList : JList → List String
  | .nil => []
  | .cons v tl => formatV v :: formatList tl

/-- Renderings of a JSON object's entries. -/
def formatEntries : JEntries → List String
  | .nil => []
  | .cons k v tl => (k ++ ":" ++ formatV v) :: formatEntries tl
end

/-- An IEEE-754 binary64 value `m * 2 ^ (e - 52)`, as mantissa and exponent.
Produced values have `2 ^ 52 ≤ m ≤ 2 ^ 53` (or `m = 0` for zero); only the
represented value matters below, so the `m = 2 ^ 53` rounding-overflow form
is left unnormalized. -/
abbrev F64 := Nat × Int

/-- Numerator of the value of a float pair (value = `f64Num x / f64Den x`). -/
def f64Num (x : F64) : Nat :=
  if 52 ≤ x.2 then x.1 * 2 ^ (x.2 - 52).toNat else x.1

/-- Denominator of the value of a float pair. -/
def f64Den (x : F64) : Nat :=
  if 52 ≤ x.2 then 1 else 2 ^ (52 - x.2).toNat

/-- `⌊log₂ n⌋` for `n ≥ 1`, by fuelled halving (the number is enough fuel). -/
def lgAux : Nat → Nat → Nat
  | 0, _ => 0
  | fuel + 1, n => if 2 ≤ n then lgAux fuel (n / 2) + 1 else 0

/-- `⌊log₂ n⌋` for `n ≥ 1`. -/
def lg (n : Nat) : Nat := lgAux n n

/-- Nearest integer to `a / b` with ties to even, for `b > 0`. -/
def rneFrac (a b : Nat) : Nat :=
  let f := a / b
  let r := a % b
  if 2 * r < b then f
  else if b < 2 * r then f + 1
  else if f % 2 = 0 then f else f + 1

/-- `⌊log₂ (a / b)⌋` for `a, b ≥ 1`. -/
def floorLog2Frac (a b : Nat) : Int :=
  if b ≤ a then (lg (a / b) : Int)
  else if b = a * 2 ^ lg (b / a) then -(lg (b / a) : Int)
  else -(lg (b / a) : Int) - 1

/-- The binary64 value nearest to `a / b` (nearest even on ties): the
rounding applied by Go for uint64/int64-to-float64 conversion and — because
IEEE division is correctly rounded — for float64 division of exact operands.
Normal range only, which covers every value reachable here. -/
def f64OfFrac (a b : Nat) : F64 :=
  if a = 0 ∨ b = 0 then (0, 0)
  else
    let e := floorLog2Frac a b
    let m :=
      if e ≤ 52 then rneFrac (a * 2 ^ (52 - e).toNat) b
      else rneFrac a (b * 2 ^ (e - 52).toNat)
    (m, e)

/-- Go conversion of an unsigned integer to float64. -/
def f64OfNat (n : Nat) : F64 := f64OfFrac n 1

/-- Go float64 division `x / y`: the correctly rounded exact quotient
`(x.1 / y.1) * 2 ^ (x.2 - y.2)`. -/
def f64Div (x y : F64) : F64 :=
  if 0 ≤ x.2 - y.2 then f64OfFrac (x.1 * 2 ^ (x.2 - y.2).toNat) y.1
  else f64OfFrac x.1 (y.1 * 2 ^ (y.2 - x.2).toNat)

/-- Go `math.Round` (round half away from zero) of a nonnegative float64,
followed by Go's integer conversion of the integral result. -/
def goMathRound (x : F64) : Nat :=
  if 52 ≤ x.2 then x.1 * 2 ^ (x.2 - 52).toNat
  else
    x.1 / 2 ^ (52 - x.2).toNat +
      (if 2 ^ (52 - x.2).toNat ≤ 2 * (x.1 % 2 ^ (52 - x.2).toNat) then 1 else 0)

/-- The recognized dimension names (`models.ValidDimensions`), the allowlist
shared by parser and aggregator. -/
def validDimensions : List String := ["likes", "comments", "favorites", "retweets"]

/-- `models.Post`: creation timestamp plus the retained dimension fields
(`Details`, a Go map holding raw decoded JSON values). -/
structure Post where
  timestamp : Int
  details : List (String × JValue)

/-- `models.PostPayload`: the parsed unit of work; `type` is the single
root key of the source event. -/
structure PostPayload where
  type : String
  data : Post

/-- Outcome of `extractTimestamp`: a value, a Go error, or a runtime panic
(the unchecked type assertion `tsRaw.(float64)`). -/
inductive TsOutcome where
  | ok (ts : Int)
  | err (msg : String)
  | panicked
  deriving DecidableEq

/-- `models.extractTimestamp`: require a `timestamp` key, assert it is a
float64 (panicking otherwise, as Go's unchecked `tsRaw.(float64)` does),
render it with `%.0f` and parse as int64, and require a positive result. -/
def extractTimestamp (postDetails : List (String × JValue)) : TsOutcome :=
  match lookupKey "timestamp" postDetails with
  | none => .err "missing timestamp field"
  | some tsRaw =>
    match tsRaw with
    | .jnum f =>
      match parseInt64 (intDecimal f) with
      | none => .err "invalid timestamp format"
      | some tsUnix =>
        if tsUnix ≤ 0 then .err "timestamp must be positive" else .ok tsUnix
    | _ => .panicked

/-- Go `json.Unmarshal` of a raw message into `map[string]interface{}`:
succeeds on an object (duplicate keys collapse rightward) and — a quirk of
`encoding/json` — on `null`, which leaves the map nil (empty); any other
value is an unmarshalling error. -/
def decodeObjectMap : JValue → Option (List (String × JValue))
  | .jobj fs => some (dedupKeys fs.toList)
  | .jnull => some []
  | _ => none

/-- The `Details` map built by `UnmarshalJSON`: iterate the recognized
dimensions and copy those present in the decoded post object. -/
def dimFilter (postDetails : List (String × JValue)) : List (String × JValue) :=
  validDimensions.foldr
    (fun dim acc =>
      match lookupKey dim postDetails with
      | some val => (dim, val) :: acc
      | none => acc)
    []

/-- Outcome of `PostPayload.UnmarshalJSON`: a payload, a Go error, or a
runtime panic propagated from `extractTimestamp`. -/
inductive POutcome where
  | ok (p : PostPayload)
  | err (msg : String)
  | panicked

/-- `PostPayload.UnmarshalJSON` on an already-decoded JSON document:
decode into a one-key map (any other arity errors), decode the single value
into a post-details map, extract and validate the timestamp, and retain
exactly the recognized dimension fields. -/
def unmarshalPostPayload (event : JValue) : POutcome :=
  match event with
  | .jobj fields =>
    let eventRaw := dedupKeys fields.toList
    match eventRaw with
    | [(postType, postData)] =>
      match decodeObjectMap postData with
      | none => .err ("failed to unmarshal " ++ postType ++ " data")
      | some postDetails =>
        match extractTimestamp postDetails with
        | .panicked => .panicked
        | .err e => .err e
        | .ok ts => .ok ⟨postType, ⟨ts, dimFilter postDetails⟩⟩
    | _ => .err ("expected single root key, got " ++ natDecimal eventRaw.length)
  | .jnull => .err ("expected single root key, got 0")
  | _ => .err "failed to unmarshal post payload"

/-- `PostPayload.GetDimensionValue`: look the dimension up in `Details`,
render the raw value with `%v` and parse it as uint64; any failure reports
the dimension as absent. -/
def getDimensionValue (p : PostPayload) (dimension : String) : Option Nat :=
  match lookupKey dimension p.data.details with
  | none => none
  | some val => parseUint64 (formatV val)

/-- `services.aggregator`: the O(1) running state. `dimensionSum` is a Go
uint64 and wraps modulo 2 ^ 64. -/
structure Aggregator where
  totalPosts : Nat
  minimumTimestamp : Int
  maximumTimestamp : Int
  dimensionSum : Nat
  validCount : Nat
  dimension : String
  deriving DecidableEq

/-- `services.newAggregator`. -/
def newAggregator (dimension : String) : Aggregator :=
  { totalPosts := 0
    minimumTimestamp := 0
    maximumTimestamp := 0
    dimensionSum := 0
    validCount := 0
    dimension := dimension }

/-- `services.aggregator.processPost`: count the post, update the running
min/max timestamps (the first post initializes both), and fold the parsed
dimension value into sum and valid count when present. -/
def processPost (agg : Aggregator) (post : PostPayload) : Aggregator :=
  let totalPosts := agg.totalPosts + 1
  let timestamp := post.data.timestamp
  let minimumTimestamp :=
    if totalPosts = 1 then timestamp
    else if timestamp < agg.minimumTimestamp then timestamp else agg.minimumTimestamp
  let maximumTimestamp :=
    if totalPosts = 1 then timestamp
    else if agg.maximumTimestamp < timestamp then timestamp else agg.maximumTimestamp
  match getDimensionValue post agg.dimension with
  | some dimValue =>
    { agg with
      totalPosts := totalPosts
      minimumTimestamp := minimumTimestamp
      maximumTimestamp := maximumTimestamp
      dimensionSum := (agg.dimensionSum + dimValue) % 2 ^ 64
      validCount := agg.validCount + 1 }
  | none =>
    { agg with
      totalPosts := totalPosts
      minimumTimestamp := minimumTimestamp
      maximumTimestamp := maximumTimestamp }

/-- `models.AnalysisResult`. -/
structure AnalysisResult where
  totalPosts : Nat
  minimumTimestamp : Int
  maximumTimestamp : Int
  average : Int
  deriving DecidableEq

/-- `services.aggregator.getResult`: copy the counters and compute
`int(math.Round(float64(dimensionSum) / float64(validCount)))` — float64
conversions and division round to nearest even, `math.Round` rounds half
away from zero — with average zero when no post carried the dimension. -/
def getResult (agg : Aggregator) : AnalysisResult :=
  { totalPosts := agg.totalPosts
    minimumTimestamp := agg.minimumTimestamp
    maximumTimestamp := agg.maximumTimestamp
    average :=
      if 0 < agg.validCount then
        (goMathRound (f64Div (f64OfNat agg.dimensionSum) (f64OfNat agg.validCount)) : Int)
      else 0 }

/-- `services.StreamResult`: a post, an error, both or neither may be set;
the Go struct has two nullable fields. -/
structure StreamResult where
  post : Option PostPayload
  err : Option String

/-- The consumption loop of `services.computeAnalysis` over the remaining
channel contents, from an accumulator state: an error entry stops
consumption at once and reports the statistics so far, a post entry is
folded in, an empty entry is skipped. -/
def computeAnalysisAux (agg : Aggregator) : List StreamResult → AnalysisResult × Option String
  | [] => (getResult agg, none)
  | r :: rest =>
    match r.err with
    | some e => (getResult agg, some e)
    | none =>
      match r.post with
      | some p => computeAnalysisAux (processPost agg p) rest
      | none => computeAnalysisAux agg rest

/-- `services.computeAnalysis`: fold the stream results (the channel's FIFO
contents) into a fresh aggregator. -/
def computeAnalysis (results : List StreamResult) (dimension : String) :
    AnalysisResult × Option String :=
  computeAnalysisAux (newAggregator dimension) results

/-- Folding a list of bare posts, the state reached by `computeAnalysis`
after consuming exactly those posts. -/
def foldPosts (posts : List PostPayload) (dimension : String) : Aggregator :=
  posts.foldl processPost (newAggregator dimension)

/-- The upstream HTTP response: its status code, and the stream results the
reader worker would produce from its body. -/
structure HttpResponse where
  statusCode : Nat
  body : List StreamResult

/-- `services.StreamClient.ReadEvents`, connection phase: a transport
failure or a non-200 status yields only an error — no result channel exists;
on success the caller receives the channel (its eventual FIFO contents). -/
def readEvents (conn : Except String HttpResponse) : Except String (List StreamResult) :=
  match conn with
  | .error e => .error ("failed to connect to stream: " ++ e)
  | .ok resp =>
    if resp.statusCode ≠ 200 then .error ("unexpected status code: " ++ natDecimal resp.statusCode)
    else .ok resp.body

/-- The wrapping applied by `AnalyzePosts` when the aggregation step reports
an error: a partial-results error embedding the analyzed-post count and the
underlying cause. -/
def wrapPartialErr (n : Nat) (cause : String) : String :=
  "partial results (analyzed " ++ natDecimal n ++ " posts): " ++ cause

/-- `services.StreamAnalyzer.AnalyzePosts`: read events (short-circuiting
with no result on a connection failure), compute the analysis, and wrap any
aggregation error as a partial-results error alongside the non-nil result. -/
def analyzePosts (conn : Except String HttpResponse) (dimension : String) :
    Option AnalysisResult × Option String :=
  match readEvents conn with
  | .error e => (none, some e)
  | .ok results =>
    match computeAnalysis results dimension with
    | (result, some e) => (some result, some (wrapPartialErr result.totalPosts e))
    | (result, none) => (some result, none)

/-- The timestamps of a post list. -/
def timestamps (posts : List PostPayload) : List Int :=
  posts.map (fun p => p.data.timestamp)

/-- One running-minimum step in the shape `processPost` uses (ties keep the
accumulator). -/
def minStep (acc : Int) (q : PostPayload) : Int :=
  if q.data.timestamp < acc then q.data.timestamp else acc

/-- One running-maximum step in the shape `processPost` uses. -/
def maxStep (acc : Int) (q : PostPayload) : Int :=
  if acc < q.data.timestamp then q.data.timestamp else acc

/-- The minimum timestamp of a post list in the running-fold shape of
`processPost` (`0` for the empty list, as `getResult` reports it). -/
def minTs (posts : List PostPayload) : Int :=
  match posts with
  | [] => 0
  | p :: rest => rest.foldl minStep p.data.timestamp

/-- The maximum timestamp of a post list in the running-fold shape of
`processPost`. -/
def maxTs (posts : List PostPayload) : Int :=
  match posts with
  | [] => 0
  | p :: rest => rest.foldl maxStep p.data.timestamp

/-- The dimension values the aggregator actually folds in: one entry per
post whose `GetDimensionValue` succeeds, in stream order. -/
def dimValues (posts : List PostPayload) (dimension : String) : List Nat :=
  posts.filterMap (fun p => getDimensionValue p dimension)

/-- Round half away from zero of the exact nonnegative quotient `a / b`
(zero when `b = 0`): `⌊a / b + 1 / 2⌋`, with ties landing upward, is
`(2 * a + b) / (2 * b)` in integer division. -/
def roundHalfFrac (a b : Nat) : Nat :=
  if b = 0 then 0 else (2 * a + b) / (2 * b)

/-- The float pair `x` represents exactly the rational `a / b`. -/
abbrev f64Exact (x : F64) (a b : Nat) : Prop :=
  f64Num x * b = a * f64Den x

/-- The reading of "its stored raw value parses as a non-negative 64-bit
integer" used by the claims: the raw decoded value, taken as a number,
lies in the uint64 range. -/
def specParsedDim (v : JValue) : Option Nat :=
  match v with
  | .jnum n => if 0 ≤ n ∧ n < 2 ^ 64 then some n.toNat else none
  | _ => none

/-- The dimension values deemed present by that reading of the claims. -/
def specDimValues (posts : List PostPayload) (dimension : String) : List Nat :=
  posts.filterMap (fun p => (lookupKey dimension p.data.details).bind specParsedDim)

example : parseUint64 "386963" = some 386963 := by decide
example : parseUint64 "1e+06" = none := by decide
example : parseUint64 "" = none := by decide
example : parseUint64 "18446744073709551616" = none := by decide
example : parseInt64 "9223372036854775808" = none := by decide
example : parseInt64 "-42" = some (-42) := by decide
example : intDecimal (-5) = "-5" := by rfl
example : natDecimal 1633974046 = "1633974046" := by rfl
example : formatV (.jnum 386963) = "386963" := by rfl
example : formatV (.jnum 1000000) = "1e+06" := by rfl
example : formatV (.jnum 55475432) = "5.5475432e+07" := by rfl
example : formatV (.jnum 12000000) = "1.2e+07" := by rfl
example : formatV (.jstr "50") = "50" := by rfl
example : formatV .jnull = "<nil>" := by rfl
example : formatV (.jarr (.cons (.jnum 1) .nil)) = "[1]" := by rfl
example : goMathRound (f64Div (f64OfNat 300) (f64OfNat 3)) = 100 := by decide
example : goMathRound (f64Div (f64OfNat 5) (f64OfNat 2)) = 3 := by decide
example : goMathRound (f64Div (f64OfNat 1023901) (f64OfNat 2)) = 511951 := by decide
example : goMathRound (f64Div (f64OfNat 9007199254740993) (f64OfNat 1)) = 9007199254740992 := by decide

theorem toList_mk (cs : List Char) : (String.mk cs).toList = cs := rfl

/-- Parsing distributes over appending digit strings. -/
theorem parseDigitsAux_append (l1 l2 : List Char) (acc : Nat) :
    parseDigitsAux (l1 ++ l2) acc =
      match parseDigitsAux l1 acc with
      | some v => parseDigitsAux l2 v
      | none => none := by
  induction l1 generalizing acc with
  | nil => rfl
  | cons c cs ih =>
    simp only [List.cons_append, parseDigitsAux]
    cases digitVal c with
    | some d => exact ih _
    | none => rfl

theorem digitVal_ofNat (r : Nat) (h : r < 10) : digitVal (Char.ofNat (48 + r)) = some r := by
  interval_cases r <;> decide

theorem digitChar_ne_sign (r : Nat) (h : r < 10) :
    Char.ofNat (48 + r) ≠ '+' ∧ Char.ofNat (48 + r) ≠ '-' := by
  interval_cases r <;> exact ⟨by decide, by decide⟩

/-- The decimal digits of `n` parse back to `n` (under any accumulator). -/
theorem natDigitsAux_parse (fuel : Nat) :
    ∀ n acc, n ≤ fuel →
      parseDigitsAux (natDigitsAux fuel n) acc =
        some (acc * 10 ^ (natDigitsAux fuel n).length + n) := by
  induction fuel with
  | zero =>
    intro n acc h
    interval_cases n
    simp [natDigitsAux, parseDigitsAux]
  | succ fuel ih =>
    intro n acc h
    by_cases hn : n = 0
    · subst hn; simp [natDigitsAux, parseDigitsAux]
    · have hlt : n / 10 < n := Nat.div_lt_self (Nat.pos_of_ne_zero hn) (by norm_num)
      have hdiv : n / 10 ≤ fuel := by omega
      simp only [natDigitsAux, if_neg hn]
      rw [parseDigitsAux_append, ih (n / 10) acc hdiv]
      simp only [parseDigitsAux, digitVal_ofNat (n % 10) (Nat.mod_lt n (by norm_num))]
      have hdm := Nat.div_add_mod n 10
      rw [List.length_append, List.length_singleton, pow_succ]
      congr 1
      have : (acc * 10 ^ (natDigitsAux fuel (n / 10)).length + n / 10) * 10 + n % 10 =
          acc * (10 ^ (natDigitsAux fuel (n / 10)).length * 10) + (n / 10 * 10 + n % 10) := by
        ring
      omega

theorem natDigitsAux_ne_nil (fuel n : Nat) (hn : 0 < n) (hf : 0 < fuel) :
    natDigitsAux fuel n ≠ [] := by
  cases fuel with
  | zero => omega
  | succ f => simp [natDigitsAux]; omega

theorem natDigitsAux_chars (fuel : Nat) :
    ∀ n c, c ∈ natDigitsAux fuel n → ∃ r, r < 10 ∧ c = Char.ofNat (48 + r) := by
  induction fuel with
  | zero => intro n c h; simp [natDigitsAux] at h
  | succ f ih =>
    intro n c h
    by_cases hn : n = 0
    · subst hn; simp [natDigitsAux] at h
    · simp only [natDigitsAux, if_neg hn, List.mem_append, List.mem_singleton] at h
      rcases h with h | h
      · exact ih _ _ h
      · exact ⟨n % 10, Nat.mod_lt _ (by norm_num), h⟩

/-- Rendering a natural and parsing it back as int64 succeeds exactly in
range. -/
theorem parseInt64_natDecimal (n : Nat) :
    parseInt64 (natDecimal n) = if n < 2 ^ 63 then some (n : Int) else none := by
  by_cases hn : n = 0
  · subst hn; norm_num; decide
  · have hpos : 0 < n := Nat.pos_of_ne_zero hn
    have hne := natDigitsAux_ne_nil n n hpos hpos
    obtain ⟨c, cs, hcons⟩ := List.exists_cons_of_ne_nil hne
    have hch : ∃ r, r < 10 ∧ c = Char.ofNat (48 + r) := by
      apply natDigitsAux_chars n n c
      rw [hcons]; exact List.mem_cons_self c cs
    obtain ⟨r, hr, hc⟩ := hch
    have hsign := digitChar_ne_sign r hr
    have hparse : parseDigitsAux (c :: cs) 0 = some n := by
      have := natDigitsAux_parse n n 0 le_rfl
      rw [hcons] at this
      simpa using this
    have hcne1 : c ≠ '+' := by rw [hc]; exact hsign.1
    have hcne2 : c ≠ '-' := by rw [hc]; exact hsign.2
    have h1 : natDecimal n = String.mk (c :: cs) := by
      unfold natDecimal; rw [if_neg hn, hcons]
    rw [h1]
    simp only [parseInt64, toList_mk, if_neg hcne1, if_neg hcne2]
    simp [parseInt64Digits, hparse]

theorem toList_minus_mk (cs : List Char) : ("-" ++ String.mk cs).toList = '-' :: cs := rfl

/-- Rendering a negated positive natural and parsing it back as int64. -/
theorem parseInt64_neg_natDecimal (m : Nat) (hm : 0 < m) :
    parseInt64 ("-" ++ natDecimal m) = if m ≤ 2 ^ 63 then some (-(m : Int)) else none := by
  have hn : ¬m = 0 := by omega
  have hne := natDigitsAux_ne_nil m m hm hm
  obtain ⟨c, cs, hcons⟩ := List.exists_cons_of_ne_nil hne
  have hparse : parseDigitsAux (c :: cs) 0 = some m := by
    have := natDigitsAux_parse m m 0 le_rfl
    rw [hcons] at this
    simpa using this
  have h1 : natDecimal m = String.mk (c :: cs) := by
    unfold natDecimal; rw [if_neg hn, hcons]
  rw [h1]
  simp only [parseInt64, toList_minus_mk]
  simp [parseInt64Digits, hparse]

/-- Behaviour of `extractTimestamp` on a numeric timestamp: success exactly
for a positive value within int64 range, an error otherwise. -/
theorem extractTimestamp_jnum (details : List (String × JValue)) (f : Int)
    (h : lookupKey "timestamp" details = some (.jnum f)) :
    (0 < f ∧ f < 2 ^ 63 → extractTimestamp details = .ok f) ∧
    (¬(0 < f ∧ f < 2 ^ 63) → ∃ msg, extractTimestamp details = .err msg) := by
  constructor
  · rintro ⟨hpos, hlt⟩
    have hid : intDecimal f = natDecimal f.natAbs := by
      unfold intDecimal; rw [if_neg (by omega)]
    have hparse : parseInt64 (intDecimal f) = some f := by
      rw [hid, parseInt64_natDecimal, if_pos (by omega)]
      congr 1
      omega
    simp only [extractTimestamp, h, hparse]
    rw [if_neg (by omega)]
  · intro hneg
    rcases lt_trichotomy f 0 with hf | hf | hf
    · -- negative timestamp: either parses to a non-positive value or
      -- fails the range check; both paths are errors
      have hid : intDecimal f = "-" ++ natDecimal f.natAbs := by
        unfold intDecimal; rw [if_pos hf]
      by_cases hr : f.natAbs ≤ 2 ^ 63
      · have hparse : parseInt64 (intDecimal f) = some (-(f.natAbs : Int)) := by
          rw [hid, parseInt64_neg_natDecimal f.natAbs (by omega), if_pos hr]
        refine ⟨"timestamp must be positive", ?_⟩
        simp only [extractTimestamp, h, hparse]
        rw [if_pos (by omega)]
      · have hparse : parseInt64 (intDecimal f) = none := by
          rw [hid, parseInt64_neg_natDecimal f.natAbs (by omega), if_neg hr]
        refine ⟨"invalid timestamp format", ?_⟩
        simp only [extractTimestamp, h, hparse]
    · subst hf
      have hparse : parseInt64 (intDecimal 0) = some 0 := by
        have : intDecimal 0 = natDecimal 0 := rfl
        rw [this, parseInt64_natDecimal, if_pos (by norm_num)]
        rfl
      refine ⟨"timestamp must be positive", ?_⟩
      simp only [extractTimestamp, h, hparse]
      rw [if_pos (by norm_num)]
    · -- positive but beyond the int64 range (the in-range case is excluded
      -- by the hypothesis)
      have hge : (2 : Int) ^ 63 ≤ f := by
        rcases not_and_or.mp hneg with h1 | h1 <;> omega
      have hid : intDecimal f = natDecimal f.natAbs := by
        unfold intDecimal; rw [if_neg (by omega)]
      have hparse : parseInt64 (intDecimal f) = none := by
        rw [hid, parseInt64_natDecimal, if_neg (by omega)]
      refine ⟨"invalid timestamp format", ?_⟩
      simp only [extractTimestamp, h, hparse]

/-- Looking a name up in the filtered dimension map finds exactly the
recognized names present in the post-details map. -/
theorem lookupKey_foldr_dims (dims : List String) (details : List (String × JValue))
    (dimension : String) :
    lookupKey dimension
      (dims.foldr
        (fun dim acc =>
          match lookupKey dim details with
          | some val => (dim, val) :: acc
          | none => acc)
        []) =
      if dimension ∈ dims then lookupKey dimension details else none := by
  induction dims with
  | nil => simp [lookupKey]
  | cons d ds ih =>
    simp only [List.foldr_cons, List.mem_cons]
    cases hd : lookupKey d details with
    | some v =>
      by_cases hdd : d = dimension
      · subst hdd
        simp [lookupKey, hd]
      · simp only [lookupKey, if_neg hdd, ih]
        by_cases hmem : dimension ∈ ds
        · simp [hmem]
        · simp [hmem, Ne.symm hdd]
    | none =>
      rw [ih]
      by_cases hdd : d = dimension
      · subst hdd
        by_cases hmem : d ∈ ds <;> simp [hmem, hd]
      · by_cases hmem : dimension ∈ ds
        · simp [hmem]
        · simp [hmem, Ne.symm hdd]

/-- `dimFilter` keeps exactly the recognized dimensions present in the
decoded post object and drops everything else. -/
theorem lookupKey_dimFilter (details : List (String × JValue)) (dimension : String) :
    lookupKey dimension (dimFilter details) =
      if dimension ∈ validDimensions then lookupKey dimension details else none := by
  exact lookupKey_foldr_dims validDimensions details dimension

theorem minTs_append (posts : List PostPayload) (p : PostPayload) (h : posts ≠ []) :
    minTs (posts ++ [p]) =
      if p.data.timestamp < minTs posts then p.data.timestamp else minTs posts := by
  cases posts with
  | nil => exact absurd rfl h
  | cons q rest =>
    simp [minTs, List.cons_append, List.foldl_append, minStep]

theorem maxTs_append (posts : List PostPayload) (p : PostPayload) (h : posts ≠ []) :
    maxTs (posts ++ [p]) =
      if maxTs posts < p.data.timestamp then p.data.timestamp else maxTs posts := by
  cases posts with
  | nil => exact absurd rfl h
  | cons q rest =>
    simp [maxTs, List.cons_append, List.foldl_append, maxStep]

theorem dimValues_append (l l2 : List PostPayload) (dim : String) :
    dimValues (l ++ l2) dim = dimValues l dim ++ dimValues l2 dim := by
  simp [dimValues, List.filterMap_append]

/-- Closed form of the aggregator state reached by folding a post list:
the post count, the running min/max timestamps, the wrapped dimension sum
and the count of posts that contributed to it. -/
theorem foldPosts_eq (dim : String) (posts : List PostPayload) :
    foldPosts posts dim =
      { totalPosts := posts.length
        minimumTimestamp := minTs posts
        maximumTimestamp := maxTs posts
        dimensionSum := (dimValues posts dim).sum % 2 ^ 64
        validCount := (dimValues posts dim).length
        dimension := dim } := by
  induction posts using List.reverseRecOn with
  | nil => rfl
  | append_singleton l p ih =>
    have hstep : foldPosts (l ++ [p]) dim = processPost (foldPosts l dim) p := by
      unfold foldPosts
      rw [List.foldl_append, List.foldl_cons, List.foldl_nil]
    rw [hstep, ih]
    cases l with
    | nil =>
      unfold processPost
      cases hgd : getDimensionValue p dim with
      | some v => simp [minTs, maxTs, dimValues, List.filterMap_cons, hgd]
      | none => simp [minTs, maxTs, dimValues, List.filterMap_cons, hgd]
    | cons q rest =>
      have hne : (q :: rest) ≠ ([] : List PostPayload) := by simp
      have hlen : ¬((q :: rest).length + 1 = 1) := by simp
      unfold processPost
      cases hgd : getDimensionValue p dim with
      | some v =>
        have hp : dimValues [p] dim = [v] := by simp [dimValues, hgd]
        simp only [hgd, if_neg hlen, Aggregator.mk.injEq]
        refine ⟨by simp, ?_, ?_, ?_, ?_, trivial⟩
        · rw [minTs_append _ _ hne]
        · rw [maxTs_append _ _ hne]
        · rw [dimValues_append, hp, List.sum_append, List.sum_cons, List.sum_nil]
          omega
        · rw [dimValues_append, hp, List.length_append, List.length_singleton]
      | none =>
        have hp : dimValues [p] dim = [] := by simp [dimValues, hgd]
        simp only [hgd, if_neg hlen, Aggregator.mk.injEq]
        refine ⟨by simp, ?_, ?_, ?_, ?_, trivial⟩
        · rw [minTs_append _ _ hne]
        · rw [maxTs_append _ _ hne]
        · rw [dimValues_append, hp, List.append_nil]
        · rw [dimValues_append, hp, List.append_nil]

theorem foldl_minStep_le (rest : List PostPayload) : ∀ a : Int,
    rest.foldl minStep a ≤ a ∧ ∀ q ∈ rest, rest.foldl minStep a ≤ q.data.timestamp := by
  induction rest with
  | nil => intro a; exact ⟨le_refl a, by simp⟩
  | cons q rs ih =>
    intro a
    rw [List.foldl_cons]
    rcases ih (minStep a q) with ⟨h1, h2⟩
    have hstep : minStep a q ≤ a ∧ minStep a q ≤ q.data.timestamp := by
      unfold minStep
      by_cases hq : q.data.timestamp < a
      · rw [if_pos hq]; omega
      · rw [if_neg hq]; omega
    refine ⟨le_trans h1 hstep.1, ?_⟩
    intro r hr
    rcases List.mem_cons.mp hr with hr | hr
    · subst hr; exact le_trans h1 hstep.2
    · exact h2 r hr

theorem foldl_minStep_mem (rest : List PostPayload) : ∀ a : Int,
    rest.foldl minStep a = a ∨ rest.foldl minStep a ∈ timestamps rest := by
  induction rest with
  | nil => intro a; left; rfl
  | cons q rs ih =>
    intro a
    rw [List.foldl_cons]
    rcases ih (minStep a q) with h | h
    · rw [h]; unfold minStep
      by_cases hq : q.data.timestamp < a
      · right; rw [if_pos hq]; simp [timestamps]
      · left; rw [if_neg hq]
    · right
      simp only [timestamps, List.map_cons, List.mem_cons]
      right
      exact h

theorem foldl_maxStep_le (rest : List PostPayload) : ∀ a : Int,
    a ≤ rest.foldl maxStep a ∧ ∀ q ∈ rest, q.data.timestamp ≤ rest.foldl maxStep a := by
  induction rest with
  | nil => intro a; exact ⟨le_refl a, by simp⟩
  | cons q rs ih =>
    intro a
    rw [List.foldl_cons]
    rcases ih (maxStep a q) with ⟨h1, h2⟩
    have hstep : a ≤ maxStep a q ∧ q.data.timestamp ≤ maxStep a q := by
      unfold maxStep
      by_cases hq : a < q.data.timestamp
      · rw [if_pos hq]; omega
      · rw [if_neg hq]; omega
    refine ⟨le_trans hstep.1 h1, ?_⟩
    intro r hr
    rcases List.mem_cons.mp hr with hr | hr
    · subst hr; exact le_trans hstep.2 h1
    · exact h2 r hr

theorem foldl_maxStep_mem (rest : List PostPayload) : ∀ a : Int,
    rest.foldl maxStep a = a ∨ rest.foldl maxStep a ∈ timestamps rest := by
  induction rest with
  | nil => intro a; left; rfl
  | cons q rs ih =>
    intro a
    rw [List.foldl_cons]
    rcases ih (maxStep a q) with h | h
    · rw [h]; unfold maxStep
      by_cases hq : a < q.data.timestamp
      · right; rw [if_pos hq]; simp [timestamps]
      · left; rw [if_neg hq]
    · right
      simp only [timestamps, List.map_cons, List.mem_cons]
      right
      exact h

/-- The running minimum of a non-empty post list is one of its timestamps. -/
theorem minTs_mem (posts : List PostPayload) (h : posts ≠ []) :
    minTs posts ∈ timestamps posts := by
  cases posts with
  | nil => exact absurd rfl h
  | cons p rest =>
    rcases foldl_minStep_mem rest p.data.timestamp with heq | hmem
    · rw [minTs, heq]
      simp [timestamps]
    · rw [minTs]
      simp only [timestamps, List.map_cons, List.mem_cons]
      right
      exact hmem

/-- The running minimum is a lower bound on every timestamp. -/
theorem minTs_le (posts : List PostPayload) : ∀ q ∈ posts, minTs posts ≤ q.data.timestamp := by
  cases posts with
  | nil => simp
  | cons p rest =>
    intro q hq
    rcases List.mem_cons.mp hq with hq | hq
    · subst hq
      exact (foldl_minStep_le rest q.data.timestamp).1
    · exact (foldl_minStep_le rest p.data.timestamp).2 q hq

/-- The running maximum of a non-empty post list is one of its timestamps. -/
theorem maxTs_mem (posts : List PostPayload) (h : posts ≠ []) :
    maxTs posts ∈ timestamps posts := by
  cases posts with
  | nil => exact absurd rfl h
  | cons p rest =>
    rcases foldl_maxStep_mem rest p.data.timestamp with heq | hmem
    · rw [maxTs, heq]
      simp [timestamps]
    · rw [maxTs]
      simp only [timestamps, List.map_cons, List.mem_cons]
      right
      exact hmem

/-- The running maximum is an upper bound on every timestamp. -/
theorem le_maxTs (posts : List PostPayload) : ∀ q ∈ posts, q.data.timestamp ≤ maxTs posts := by
  cases posts with
  | nil => simp
  | cons p rest =>
    intro q hq
    rcases List.mem_cons.mp hq with hq | hq
    · subst hq
      exact (foldl_maxStep_le rest q.data.timestamp).1
    · exact (foldl_maxStep_le rest p.data.timestamp).2 q hq

theorem f64Den_pos (x : F64) : 0 < f64Den x := by
  unfold f64Den
  by_cases h : 52 ≤ x.2
  · rw [if_pos h]; norm_num
  · rw [if_neg h]; positivity

/-- `math.Round` of a nonnegative float, followed by integer conversion, is
round-half-away-from-zero of the float's exact rational value. -/
theorem goMathRound_eq_roundHalfFrac (x : F64) :
    goMathRound x = roundHalfFrac (f64Num x) (f64Den x) := by
  unfold goMathRound roundHalfFrac f64Num f64Den
  by_cases h : 52 ≤ x.2
  · rw [if_pos h, if_pos h, if_pos h, if_neg (by norm_num : ¬(1 : Nat) = 0)]
    omega
  · rw [if_neg h, if_neg h, if_neg h]
    set p := 2 ^ (52 - x.2).toNat with hpdef
    have hp : 0 < p := by positivity
    rw [if_neg (by omega : ¬p = 0)]
    have hdm := Nat.div_add_mod x.1 p
    have hr : x.1 % p < p := Nat.mod_lt _ hp
    have h2 : 2 * x.1 + p = (2 * (x.1 % p) + p) + (2 * p) * (x.1 / p) := by
      conv_lhs => rw [← hdm]
      ring
    rw [h2, Nat.add_mul_div_left _ _ (by omega : 0 < 2 * p)]
    by_cases hcase : p ≤ 2 * (x.1 % p)
    · rw [if_pos hcase]
      have hone : (2 * (x.1 % p) + p) / (2 * p) = 1 := by
        apply le_antisymm
        · have := (Nat.div_lt_iff_lt_mul (by omega : 0 < 2 * p)).mpr
            (by omega : 2 * (x.1 % p) + p < 2 * (2 * p))
          omega
        · exact (Nat.one_le_div_iff (by omega)).mpr (by omega)
      omega
    · rw [if_neg hcase]
      have hzero : (2 * (x.1 % p) + p) / (2 * p) = 0 :=
        Nat.div_eq_of_lt (by omega)
      omega

theorem div_le_div_of_cross (x y x' y' : Nat) (hy : 0 < y) (hy' : 0 < y')
    (h : x * y' = x' * y) : x / y ≤ x' / y' := by
  rw [Nat.le_div_iff_mul_le hy']
  have h1 : x / y * y ≤ x := Nat.div_mul_le_self x y
  have h3 : x / y * y' * y ≤ x' * y := by
    calc x / y * y' * y = x / y * y * y' := by ring
    _ ≤ x * y' := Nat.mul_le_mul_right _ h1
    _ = x' * y := h
  exact Nat.le_of_mul_le_mul_right h3 hy

/-- Integer division is invariant across proportional fractions. -/
theorem div_eq_div_of_cross (x y x' y' : Nat) (hy : 0 < y) (hy' : 0 < y')
    (h : x * y' = x' * y) : x / y = x' / y' :=
  le_antisymm (div_le_div_of_cross x y x' y' hy hy' h)
    (div_le_div_of_cross x' y' x y hy' hy h.symm)

/-- Round-half-away-from-zero is well defined on the represented rational. -/
theorem roundHalfFrac_congr (a b c d : Nat) (hb : 0 < b) (hd : 0 < d)
    (h : a * d = c * b) : roundHalfFrac a b = roundHalfFrac c d := by
  unfold roundHalfFrac
  rw [if_neg (by omega), if_neg (by omega)]
  apply div_eq_div_of_cross _ _ _ _ (by omega) (by omega)
  calc (2 * a + b) * (2 * d) = 4 * (a * d) + 2 * (b * d) := by ring
  _ = 4 * (c * b) + 2 * (b * d) := by rw [h]
  _ = (2 * c + d) * (2 * b) := by ring

/-- When the float pair represents `a / b` exactly, Go's rounding pipeline
agrees with exact round-half-away-from-zero. -/
theorem goMathRound_exact (x : F64) (a b : Nat) (hb : 0 < b) (h : f64Exact x a b) :
    goMathRound x = roundHalfFrac a b := by
  rw [goMathRound_eq_roundHalfFrac]
  exact roundHalfFrac_congr _ _ _ _ (f64Den_pos x) hb h

/-- A prefix of valid post entries is folded in; the first error entry stops
consumption immediately, discarding everything after it. -/
theorem computeAnalysisAux_error_stop (valids : List StreamResult) :
    ∀ (agg : Aggregator) (errRes : StreamResult) (e : String) (rest : List StreamResult),
      (∀ r ∈ valids, r.err = none ∧ ∃ p, r.post = some p) →
      errRes.err = some e →
      computeAnalysisAux agg (valids ++ errRes :: rest) =
        (getResult ((valids.filterMap (fun r => r.post)).foldl processPost agg), some e) := by
  induction valids with
  | nil =>
    intro agg errRes e rest _ he
    simp only [List.nil_append, List.filterMap_nil, List.foldl_nil, computeAnalysisAux, he]
  | cons r rs ih =>
    intro agg errRes e rest hv he
    obtain ⟨hrerr, p, hrpost⟩ := hv r (List.mem_cons_self r rs)
    simp only [List.cons_append, computeAnalysisAux, hrerr, hrpost, List.filterMap_cons,
      List.foldl_cons]
    exact ih (processPost agg p) errRes e rest (fun q hq => hv q (List.mem_cons_of_mem r hq)) he

/-- All-valid prefixes keep one parsed post per entry. -/
theorem filterMap_post_length (valids : List StreamResult)
    (hv : ∀ r ∈ valids, r.err = none ∧ ∃ p, r.post = some p) :
    (valids.filterMap (fun r => r.post)).length = valids.length := by
  induction valids with
  | nil => rfl
  | cons r rs ih =>
    obtain ⟨hrerr, p, hrpost⟩ := hv r (List.mem_cons_self r rs)
    simp only [List.filterMap_cons, hrpost, List.length_cons]
    rw [ih (fun q hq => hv q (List.mem_cons_of_mem r hq))]

/-- `extractTimestamp` succeeds exactly on a numeric `timestamp` whose value
is positive and within the signed 64-bit range, and then returns that value. -/
theorem extractTimestamp_ok_iff (details : List (String × JValue)) (ts : Int) :
    extractTimestamp details = .ok ts ↔
      lookupKey "timestamp" details = some (.jnum ts) ∧ 0 < ts ∧ ts < 2 ^ 63 := by
  constructor
  · intro h
    cases hl : lookupKey "timestamp" details with
    | none =>
      simp only [extractTimestamp, hl] at h
      exact TsOutcome.noConfusion h
    | some v =>
      simp only [extractTimestamp, hl] at h
      cases v with
      | jnum f =>
        cases hp : parseInt64 (intDecimal f) with
        | none =>
          simp only [hp] at h
          exact TsOutcome.noConfusion h
        | some t =>
          simp only [hp] at h
          by_cases hle : t ≤ 0
          · rw [if_pos hle] at h
            exact TsOutcome.noConfusion h
          · rw [if_neg hle] at h
            have ht : t = ts := by injection h
            by_cases hf : f < 0
            · have hid : intDecimal f = "-" ++ natDecimal f.natAbs := by
                unfold intDecimal; rw [if_pos hf]
              rw [hid, parseInt64_neg_natDecimal f.natAbs (by omega)] at hp
              by_cases hb : f.natAbs ≤ 2 ^ 63
              · rw [if_pos hb] at hp
                have := Option.some.inj hp
                omega
              · rw [if_neg hb] at hp
                exact Option.noConfusion hp
            · have hid : intDecimal f = natDecimal f.natAbs := by
                unfold intDecimal; rw [if_neg hf]
              rw [hid, parseInt64_natDecimal] at hp
              by_cases hb : f.natAbs < 2 ^ 63
              · rw [if_pos hb] at hp
                have := Option.some.inj hp
                have hfts : f = ts := by omega
                subst hfts
                exact ⟨by simp [hl], by omega, by omega⟩
              · rw [if_neg hb] at hp
                exact Option.noConfusion hp
      | jstr sv => exact TsOutcome.noConfusion h
      | jbool b => exact TsOutcome.noConfusion h
      | jnull => exact TsOutcome.noConfusion h
      | jarr xs => exact TsOutcome.noConfusion h
      | jobj fs => exact TsOutcome.noConfusion h
  · rintro ⟨hl, hpos, hlt⟩
    exact (extractTimestamp_jnum details ts hl).1 ⟨hpos, hlt⟩

/-- Reduction of `UnmarshalJSON` once the decoded event map is known to
have exactly one entry. -/
theorem unmarshal_eq_of_single (fields : JEntries) (key : String) (postData : JValue)
    (hm : dedupKeys fields.toList = [(key, postData)]) :
    unmarshalPostPayload (.jobj fields) =
      match decodeObjectMap postData with
      | none => .err ("failed to unmarshal " ++ key ++ " data")
      | some postDetails =>
        match extractTimestamp postDetails with
        | .panicked => .panicked
        | .err e => .err e
        | .ok ts => .ok ⟨key, ⟨ts, dimFilter postDetails⟩⟩ := by
  simp only [unmarshalPostPayload, hm]

/-- Any root-key arity other than one is rejected with the arity error. -/
theorem unmarshal_err_of_not_single (fields : JEntries)
    (hm : (dedupKeys fields.toList).length ≠ 1) :
    unmarshalPostPayload (.jobj fields) =
      .err ("expected single root key, got " ++ natDecimal (dedupKeys fields.toList).length) := by
  cases hd : dedupKeys fields.toList with
  | nil => simp only [unmarshalPostPayload, hd]
  | cons kv tl =>
    obtain ⟨k, v⟩ := kv
    cases tl with
    | nil =>
      exfalso
      rw [hd] at hm
      simp at hm
    | cons kv2 tl2 =>
      obtain ⟨k2, v2⟩ := kv2
      simp only [unmarshalPostPayload, hd]

/-- `UnmarshalJSON` of a JSON object succeeds exactly when the object has a
single root key, its value is itself an object, and that object carries a
valid timestamp; the payload is then determined. -/
theorem unmarshal_ok_iff (fields : JEntries) (p : PostPayload) :
    unmarshalPostPayload (.jobj fields) = .ok p ↔
      ∃ key inner ts,
        dedupKeys fields.toList = [(key, JValue.jobj inner)] ∧
        extractTimestamp (dedupKeys inner.toList) = .ok ts ∧
        p = ⟨key, ⟨ts, dimFilter (dedupKeys inner.toList)⟩⟩ := by
  constructor
  · intro h
    cases hd : dedupKeys fields.toList with
    | nil =>
      rw [unmarshal_err_of_not_single fields (by rw [hd]; simp)] at h
      exact POutcome.noConfusion h
    | cons kv tl =>
      obtain ⟨key, postData⟩ := kv
      cases tl with
      | cons kv2 tl2 =>
        rw [unmarshal_err_of_not_single fields (by rw [hd]; simp)] at h
        exact POutcome.noConfusion h
      | nil =>
        rw [unmarshal_eq_of_single fields key postData hd] at h
        cases postData with
        | jobj inner =>
          simp only [decodeObjectMap] at h
          cases hts : extractTimestamp (dedupKeys inner.toList) with
          | panicked => simp only [hts] at h; exact POutcome.noConfusion h
          | err e => simp only [hts] at h; exact POutcome.noConfusion h
          | ok ts =>
            simp only [hts] at h
            refine ⟨key, inner, ts, rfl, hts, ?_⟩
            have := POutcome.ok.inj h
            exact this.symm
        | jnull =>
          simp only [decodeObjectMap] at h
          have hempty : extractTimestamp ([] : List (String × JValue)) =
              .err "missing timestamp field" := rfl
          rw [hempty] at h
          exact POutcome.noConfusion h
        | jnum n => exact POutcome.noConfusion h
        | jstr sv => exact POutcome.noConfusion h
        | jbool b => exact POutcome.noConfusion h
        | jarr xs => exact POutcome.noConfusion h
  · rintro ⟨key, inner, ts, hd, hts, hp⟩
    rw [unmarshal_eq_of_single fields key (JValue.jobj inner) hd]
    simp only [decodeObjectMap, hts]
    rw [hp]

/-- C1: for every stream whose first N entries carry valid posts and whose
next entry carries an error, `computeAnalysis` stops at the error entry,
ignores everything after it, and returns the statistics of exactly the
first N posts together with that error; in particular `totalPosts = N`. -/
theorem c1_error_stops_with_partial_stats (valids : List StreamResult) (errRes : StreamResult)
    (e : String) (rest : List StreamResult) (dim : String)
    (hv : ∀ r ∈ valids, r.err = none ∧ ∃ p, r.post = some p)
    (he : errRes.err = some e) :
    computeAnalysis (valids ++ errRes :: rest) dim =
      (getResult (foldPosts (valids.filterMap (fun r => r.post)) dim), some e) ∧
    (computeAnalysis (valids ++ errRes :: rest) dim).1.totalPosts = valids.length := by
  have hmain := computeAnalysisAux_error_stop valids (newAggregator dim) errRes e rest hv he
  refine ⟨hmain, ?_⟩
  unfold computeAnalysis
  rw [hmain]
  show (getResult (foldPosts (valids.filterMap (fun r => r.post)) dim)).totalPosts = valids.length
  rw [foldPosts_eq]
  exact filterMap_post_length valids hv

theorem c1_witness :
    computeAnalysis
        ([⟨some ⟨"tweet", ⟨100, [("likes", JValue.jnum 50)]⟩⟩, none⟩,
          ⟨some ⟨"pin", ⟨200, []⟩⟩, none⟩] ++
          ⟨none, some "stream error: parse error"⟩ ::
            [⟨some ⟨"tweet", ⟨300, [("likes", JValue.jnum 999)]⟩⟩, none⟩]) "likes" =
      (getResult
        (foldPosts
          (([⟨some ⟨"tweet", ⟨100, [("likes", JValue.jnum 50)]⟩⟩, none⟩,
             ⟨some ⟨"pin", ⟨200, []⟩⟩, none⟩] : List StreamResult).filterMap
            (fun r => r.post)) "likes"),
        some "stream error: parse error") ∧
    (computeAnalysis
        ([⟨some ⟨"tweet", ⟨100, [("likes", JValue.jnum 50)]⟩⟩, none⟩,
          ⟨some ⟨"pin", ⟨200, []⟩⟩, none⟩] ++
          ⟨none, some "stream error: parse error"⟩ ::
            [⟨some ⟨"tweet", ⟨300, [("likes", JValue.jnum 999)]⟩⟩, none⟩]) "likes").1.totalPosts =
      ([⟨some ⟨"tweet", ⟨100, [("likes", JValue.jnum 50)]⟩⟩, none⟩,
        ⟨some ⟨"pin", ⟨200, []⟩⟩, none⟩] : List StreamResult).length := by
  apply c1_error_stops_with_partial_stats
  · intro r hr
    rcases List.mem_cons.mp hr with rfl | hr2
    · exact ⟨rfl, ⟨"tweet", ⟨100, [("likes", JValue.jnum 50)]⟩⟩, rfl⟩
    rcases List.mem_cons.mp hr2 with rfl | hr3
    · exact ⟨rfl, ⟨"pin", ⟨200, []⟩⟩, rfl⟩
    simp at hr3
  · rfl

/-- C10: a stream entry carrying neither a post nor an error leaves the
aggregator state untouched and does not stop consumption: the loop simply
continues with the remaining entries from the same state. -/
theorem c10_empty_entry_skipped (agg : Aggregator) (r : StreamResult)
    (rest : List StreamResult) (hpost : r.post = none) (herr : r.err = none) :
    computeAnalysisAux agg (r :: rest) = computeAnalysisAux agg rest := by
  simp only [computeAnalysisAux, herr, hpost]

theorem c10_witness :
    computeAnalysisAux (newAggregator "likes")
        (⟨none, none⟩ :: [⟨some ⟨"tweet", ⟨100, [("likes", JValue.jnum 50)]⟩⟩, none⟩]) =
      computeAnalysisAux (newAggregator "likes")
        [⟨some ⟨"tweet", ⟨100, [("likes", JValue.jnum 50)]⟩⟩, none⟩] :=
  c10_empty_entry_skipped (newAggregator "likes") ⟨none, none⟩ _ rfl rfl

/-- C7: whenever the aggregation step reports an error, `AnalyzePosts`
returns the (always non-nil) partial result alongside a wrapping error that
embeds the analyzed-post count and the underlying cause; with no error it
returns the result and nil error. -/
theorem c7_partial_result_wrapping (results : List StreamResult) (dim : String) :
    (∀ r e, computeAnalysis results dim = (r, some e) →
      analyzePosts (.ok ⟨200, results⟩) dim = (some r, some (wrapPartialErr r.totalPosts e))) ∧
    (∀ r, computeAnalysis results dim = (r, none) →
      analyzePosts (.ok ⟨200, results⟩) dim = (some r, none)) := by
  constructor
  · intro r e hc
    simp only [analyzePosts, readEvents, if_neg (by norm_num : ¬(200 : Nat) ≠ 200), hc]
  · intro r hc
    simp only [analyzePosts, readEvents, if_neg (by norm_num : ¬(200 : Nat) ≠ 200), hc]

theorem c7_witness :
    analyzePosts (.ok ⟨200, [⟨some ⟨"tweet", ⟨100, [("likes", JValue.jnum 50)]⟩⟩, none⟩,
        ⟨none, some "stream error: scanner error"⟩]⟩) "likes" =
      (some (computeAnalysis [⟨some ⟨"tweet", ⟨100, [("likes", JValue.jnum 50)]⟩⟩, none⟩,
          ⟨none, some "stream error: scanner error"⟩] "likes").1,
        some (wrapPartialErr
          (computeAnalysis [⟨some ⟨"tweet", ⟨100, [("likes", JValue.jnum 50)]⟩⟩, none⟩,
            ⟨none, some "stream error: scanner error"⟩] "likes").1.totalPosts
          "stream error: scanner error")) := by
  apply (c7_partial_result_wrapping _ "likes").1
  rfl

/-- C8: when the transport connection fails or the response status is not
HTTP 200, `ReadEvents` yields only an error and no channel, and
`AnalyzePosts` short-circuits with no result at all. -/
theorem c8_connection_failure_short_circuits (conn : Except String HttpResponse) (dim : String)
    (h : (∃ e, conn = .error e) ∨ ∃ resp, conn = .ok resp ∧ resp.statusCode ≠ 200) :
    (∃ msg, readEvents conn = .error msg) ∧
    ∃ msg, analyzePosts conn dim = (none, some msg) := by
  rcases h with ⟨e, rfl⟩ | ⟨resp, rfl, hstat⟩
  · exact ⟨⟨"failed to connect to stream: " ++ e, rfl⟩,
      ⟨"failed to connect to stream: " ++ e, rfl⟩⟩
  · refine ⟨⟨"unexpected status code: " ++ natDecimal resp.statusCode, ?_⟩,
      ⟨"unexpected status code: " ++ natDecimal resp.statusCode, ?_⟩⟩
    · simp only [readEvents, if_pos hstat]
    · simp only [analyzePosts, readEvents, if_pos hstat]

theorem c8_witness :
    ((∃ msg, readEvents (.error "connection refused") = .error msg) ∧
      ∃ msg, analyzePosts (.error "connection refused") "likes" = (none, some msg)) ∧
    (∃ msg, readEvents (.ok ⟨503, []⟩) = .error msg) ∧
      ∃ msg, analyzePosts (.ok ⟨503, []⟩) "likes" = (none, some msg) :=
  ⟨c8_connection_failure_short_circuits (.error "connection refused") "likes"
      (Or.inl ⟨"connection refused", rfl⟩),
    c8_connection_failure_short_circuits (.ok ⟨503, []⟩) "likes"
      (Or.inr ⟨⟨503, []⟩, rfl, by decide⟩)⟩

/-- C9: every aggregator state reachable from `newAggregator` by processing
posts satisfies the timestamp invariant: with no posts both extrema are
zero; with at least one post the minimum is at most the maximum and both are
timestamps of processed posts. -/
theorem c9_invariant (posts : List PostPayload) (dim : String) :
    ((foldPosts posts dim).totalPosts = 0 →
      (foldPosts posts dim).minimumTimestamp = 0 ∧
      (foldPosts posts dim).maximumTimestamp = 0) ∧
    (0 < (foldPosts posts dim).totalPosts →
      (foldPosts posts dim).minimumTimestamp ≤ (foldPosts posts dim).maximumTimestamp ∧
      (foldPosts posts dim).minimumTimestamp ∈ timestamps posts ∧
      (foldPosts posts dim).maximumTimestamp ∈ timestamps posts) := by
  rw [foldPosts_eq]
  dsimp only
  constructor
  · intro h0
    have hnil : posts = [] := List.length_eq_zero.mp h0
    subst hnil
    exact ⟨rfl, rfl⟩
  · intro hpos
    have hne : posts ≠ [] := by
      intro hnil
      rw [hnil] at hpos
      simp at hpos
    refine ⟨?_, minTs_mem posts hne, maxTs_mem posts hne⟩
    have hmem := maxTs_mem posts hne
    simp only [timestamps, List.mem_map] at hmem
    obtain ⟨q, hq, hqts⟩ := hmem
    calc minTs posts ≤ q.data.timestamp := minTs_le posts q hq
    _ = maxTs posts := hqts

theorem c9_witness :
    (foldPosts ([⟨"tweet", ⟨300, []⟩⟩, ⟨"pin", ⟨100, []⟩⟩] : List PostPayload)
          "likes").minimumTimestamp ≤
        (foldPosts ([⟨"tweet", ⟨300, []⟩⟩, ⟨"pin", ⟨100, []⟩⟩] : List PostPayload)
          "likes").maximumTimestamp ∧
      (foldPosts ([⟨"tweet", ⟨300, []⟩⟩, ⟨"pin", ⟨100, []⟩⟩] : List PostPayload)
          "likes").minimumTimestamp ∈
        timestamps ([⟨"tweet", ⟨300, []⟩⟩, ⟨"pin", ⟨100, []⟩⟩] : List PostPayload) ∧
      (foldPosts ([⟨"tweet", ⟨300, []⟩⟩, ⟨"pin", ⟨100, []⟩⟩] : List PostPayload)
          "likes").maximumTimestamp ∈
        timestamps ([⟨"tweet", ⟨300, []⟩⟩, ⟨"pin", ⟨100, []⟩⟩] : List PostPayload) :=
  (c9_invariant ([⟨"tweet", ⟨300, []⟩⟩, ⟨"pin", ⟨100, []⟩⟩] : List PostPayload) "likes").2
    (by decide)

/-- C6: folding any permutation of a non-empty post list yields the same
aggregator state, and the recorded extrema are the true minimum and maximum
of all timestamps (they belong to the timestamps and bound them all). -/
theorem c6_permutation_invariance (posts posts2 : List PostPayload) (dim : String)
    (hperm : posts.Perm posts2) (hne : posts ≠ []) :
    foldPosts posts dim = foldPosts posts2 dim ∧
    (foldPosts posts dim).minimumTimestamp ∈ timestamps posts ∧
    (∀ q ∈ posts, (foldPosts posts dim).minimumTimestamp ≤ q.data.timestamp) ∧
    (foldPosts posts dim).maximumTimestamp ∈ timestamps posts ∧
    (∀ q ∈ posts, q.data.timestamp ≤ (foldPosts posts dim).maximumTimestamp) := by
  have hne2 : posts2 ≠ [] := by
    intro h
    subst h
    exact hne hperm.eq_nil
  have hmin : minTs posts = minTs posts2 := by
    apply le_antisymm
    · have hmem := minTs_mem posts2 hne2
      simp only [timestamps, List.mem_map] at hmem
      obtain ⟨q, hq, hqts⟩ := hmem
      calc minTs posts ≤ q.data.timestamp := minTs_le posts q (hperm.mem_iff.mpr hq)
      _ = minTs posts2 := hqts
    · have hmem := minTs_mem posts hne
      simp only [timestamps, List.mem_map] at hmem
      obtain ⟨q, hq, hqts⟩ := hmem
      calc minTs posts2 ≤ q.data.timestamp := minTs_le posts2 q (hperm.mem_iff.mp hq)
      _ = minTs posts := hqts
  have hmax : maxTs posts = maxTs posts2 := by
    apply le_antisymm
    · have hmem := maxTs_mem posts hne
      simp only [timestamps, List.mem_map] at hmem
      obtain ⟨q, hq, hqts⟩ := hmem
      calc maxTs posts = q.data.timestamp := hqts.symm
      _ ≤ maxTs posts2 := le_maxTs posts2 q (hperm.mem_iff.mp hq)
    · have hmem := maxTs_mem posts2 hne2
      simp only [timestamps, List.mem_map] at hmem
      obtain ⟨q, hq, hqts⟩ := hmem
      calc maxTs posts2 = q.data.timestamp := hqts.symm
      _ ≤ maxTs posts := le_maxTs posts q (hperm.mem_iff.mpr hq)
  have hdim : (dimValues posts dim).Perm (dimValues posts2 dim) :=
    hperm.filterMap (fun p => getDimensionValue p dim)
  have hfold : foldPosts posts dim = foldPosts posts2 dim := by
    rw [foldPosts_eq dim posts, foldPosts_eq dim posts2]
    simp only [Aggregator.mk.injEq]
    exact ⟨hperm.length_eq, hmin, hmax, by rw [hdim.sum_eq], by rw [hdim.length_eq], trivial⟩
  have hminproj : (foldPosts posts dim).minimumTimestamp = minTs posts := by
    rw [foldPosts_eq]
  have hmaxproj : (foldPosts posts dim).maximumTimestamp = maxTs posts := by
    rw [foldPosts_eq]
  refine ⟨hfold, ?_, ?_, ?_, ?_⟩
  · rw [hminproj]
    exact minTs_mem posts hne
  · rw [hminproj]
    exact minTs_le posts
  · rw [hmaxproj]
    exact maxTs_mem posts hne
  · intro q hq
    rw [hmaxproj]
    exact le_maxTs posts q hq

theorem c6_witness :
    foldPosts ([⟨"tweet", ⟨100, [("likes", JValue.jnum 50)]⟩⟩,
        ⟨"pin", ⟨300, [("likes", JValue.jnum 150)]⟩⟩] : List PostPayload) "likes" =
      foldPosts ([⟨"pin", ⟨300, [("likes", JValue.jnum 150)]⟩⟩,
        ⟨"tweet", ⟨100, [("likes", JValue.jnum 50)]⟩⟩] : List PostPayload) "likes" ∧
    (foldPosts ([⟨"tweet", ⟨100, [("likes", JValue.jnum 50)]⟩⟩,
        ⟨"pin", ⟨300, [("likes", JValue.jnum 150)]⟩⟩] : List PostPayload)
        "likes").minimumTimestamp ∈
      timestamps ([⟨"tweet", ⟨100, [("likes", JValue.jnum 50)]⟩⟩,
        ⟨"pin", ⟨300, [("likes", JValue.jnum 150)]⟩⟩] : List PostPayload) ∧
    (∀ q ∈ ([⟨"tweet", ⟨100, [("likes", JValue.jnum 50)]⟩⟩,
        ⟨"pin", ⟨300, [("likes", JValue.jnum 150)]⟩⟩] : List PostPayload),
      (foldPosts ([⟨"tweet", ⟨100, [("likes", JValue.jnum 50)]⟩⟩,
        ⟨"pin", ⟨300, [("likes", JValue.jnum 150)]⟩⟩] : List PostPayload)
        "likes").minimumTimestamp ≤ q.data.timestamp) ∧
    (foldPosts ([⟨"tweet", ⟨100, [("likes", JValue.jnum 50)]⟩⟩,
        ⟨"pin", ⟨300, [("likes", JValue.jnum 150)]⟩⟩] : List PostPayload)
        "likes").maximumTimestamp ∈
      timestamps ([⟨"tweet", ⟨100, [("likes", JValue.jnum 50)]⟩⟩,
        ⟨"pin", ⟨300, [("likes", JValue.jnum 150)]⟩⟩] : List PostPayload) ∧
    (∀ q ∈ ([⟨"tweet", ⟨100, [("likes", JValue.jnum 50)]⟩⟩,
        ⟨"pin", ⟨300, [("likes", JValue.jnum 150)]⟩⟩] : List PostPayload),
      q.data.timestamp ≤
        (foldPosts ([⟨"tweet", ⟨100, [("likes", JValue.jnum 50)]⟩⟩,
          ⟨"pin", ⟨300, [("likes", JValue.jnum 150)]⟩⟩] : List PostPayload)
          "likes").maximumTimestamp) :=
  c6_permutation_invariance
    ([⟨"tweet", ⟨100, [("likes", JValue.jnum 50)]⟩⟩,
      ⟨"pin", ⟨300, [("likes", JValue.jnum 150)]⟩⟩] : List PostPayload)
    ([⟨"pin", ⟨300, [("likes", JValue.jnum 150)]⟩⟩,
      ⟨"tweet", ⟨100, [("likes", JValue.jnum 50)]⟩⟩] : List PostPayload)
    "likes"
    (List.Perm.swap (⟨"pin", ⟨300, [("likes", JValue.jnum 150)]⟩⟩ : PostPayload)
      (⟨"tweet", ⟨100, [("likes", JValue.jnum 50)]⟩⟩ : PostPayload) [])
    (by simp)

/-- C3 counterexample: the claim's exact-quotient rounding fails on the
code. With `dimensionSum = 2 ^ 53 + 1` and `validDimensionCount = 1` the
float64 conversion already loses the summand: the code returns `2 ^ 53`
while round-half-away-from-zero of the exact quotient is `2 ^ 53 + 1`. -/
theorem c3_counterexample :
    (getResult ⟨1, 5, 5, 9007199254740993, 1, "likes"⟩).average ≠
      (roundHalfFrac 9007199254740993 1 : Int) := by
  decide

/-- C3 amended: with `validDimensionCount > 0` the average is
round-half-away-from-zero of the float64 quotient
`float64(dimensionSum) / float64(validDimensionCount)`; whenever that
float64 value represents the exact quotient (in particular for small
accumulators), this equals the exact-quotient rounding the claim states;
with `validDimensionCount = 0` the average is `0`. -/
theorem c3_amended_float_rounding (agg : Aggregator)
    (hex : f64Exact (f64Div (f64OfNat agg.dimensionSum) (f64OfNat agg.validCount))
      agg.dimensionSum agg.validCount) :
    (0 < agg.validCount →
      (getResult agg).average = (roundHalfFrac agg.dimensionSum agg.validCount : Int)) ∧
    (agg.validCount = 0 → (getResult agg).average = 0) := by
  constructor
  · intro hpos
    unfold getResult
    dsimp only
    rw [if_pos hpos]
    exact congrArg _ (goMathRound_exact _ _ _ hpos hex)
  · intro h0
    unfold getResult
    dsimp only
    rw [if_neg (by omega)]

theorem c3_amended_witness :
    (0 < (⟨2, 5, 7, 5, 2, "likes"⟩ : Aggregator).validCount →
      (getResult ⟨2, 5, 7, 5, 2, "likes"⟩).average =
        (roundHalfFrac (⟨2, 5, 7, 5, 2, "likes"⟩ : Aggregator).dimensionSum
          (⟨2, 5, 7, 5, 2, "likes"⟩ : Aggregator).validCount : Int)) ∧
    ((⟨2, 5, 7, 5, 2, "likes"⟩ : Aggregator).validCount = 0 →
      (getResult ⟨2, 5, 7, 5, 2, "likes"⟩).average = 0) :=
  c3_amended_float_rounding ⟨2, 5, 7, 5, 2, "likes"⟩ (by decide)

/-- C5 counterexample: a post whose `likes` value is the float64 `1000000`
renders as `1e+06` under `%v`, fails `ParseUint`, and is silently dropped,
although it plainly parses as a non-negative 64-bit integer; the code's
average is `0` where the claim's formula demands `1000000`. -/
theorem c5_counterexample :
    (getResult (foldPosts
        ([⟨"tweet", ⟨100, [("likes", JValue.jnum 1000000)]⟩⟩] : List PostPayload)
        "likes")).average = 0 ∧
    specDimValues ([⟨"tweet", ⟨100, [("likes", JValue.jnum 1000000)]⟩⟩] : List PostPayload)
        "likes" = [1000000] ∧
    (getResult (foldPosts
        ([⟨"tweet", ⟨100, [("likes", JValue.jnum 1000000)]⟩⟩] : List PostPayload)
        "likes")).average ≠
      (roundHalfFrac
        (specDimValues ([⟨"tweet", ⟨100, [("likes", JValue.jnum 1000000)]⟩⟩] : List PostPayload)
          "likes").sum
        (specDimValues ([⟨"tweet", ⟨100, [("likes", JValue.jnum 1000000)]⟩⟩] : List PostPayload)
          "likes").length : Int) := by
  refine ⟨by decide, by decide, by decide⟩

/-- C5 amended: posts lacking the dimension — including those whose stored
value fails to parse back from its `%v` rendering, such as every float64 of
a million or more, rendered in scientific notation — still count toward
`totalPosts` but are excluded from sum and valid count; and when the sum
does not wrap uint64 and the float64 division is exact, the average is the
claimed exact rounding of sum over count of the values the code parsed. -/
theorem c5_amended_fold_average (posts : List PostPayload) (dim : String)
    (hsum : (dimValues posts dim).sum < 2 ^ 64)
    (hex : f64Exact
      (f64Div (f64OfNat (dimValues posts dim).sum) (f64OfNat (dimValues posts dim).length))
      (dimValues posts dim).sum (dimValues posts dim).length) :
    (foldPosts posts dim).totalPosts = posts.length ∧
    (foldPosts posts dim).validCount = (dimValues posts dim).length ∧
    (getResult (foldPosts posts dim)).average =
      if (dimValues posts dim).length = 0 then 0
      else (roundHalfFrac (dimValues posts dim).sum (dimValues posts dim).length : Int) := by
  have hmod : (dimValues posts dim).sum % 2 ^ 64 = (dimValues posts dim).sum :=
    Nat.mod_eq_of_lt hsum
  rw [foldPosts_eq]
  dsimp only
  refine ⟨rfl, rfl, ?_⟩
  unfold getResult
  dsimp only
  rw [hmod]
  by_cases hc : (dimValues posts dim).length = 0
  · rw [if_pos hc, if_neg (by omega)]
  · rw [if_neg hc, if_pos (by omega)]
    exact congrArg _ (goMathRound_exact _ _ _ (by omega) hex)

theorem c5_amended_witness :
    (foldPosts ([⟨"tweet", ⟨100, [("likes", JValue.jnum 50)]⟩⟩,
        ⟨"youtube_video", ⟨300, [("likes", JValue.jnum 150)]⟩⟩,
        ⟨"pin", ⟨200, [("likes", JValue.jnum 100)]⟩⟩] : List PostPayload) "likes").totalPosts =
      ([⟨"tweet", ⟨100, [("likes", JValue.jnum 50)]⟩⟩,
        ⟨"youtube_video", ⟨300, [("likes", JValue.jnum 150)]⟩⟩,
        ⟨"pin", ⟨200, [("likes", JValue.jnum 100)]⟩⟩] : List PostPayload).length ∧
    (foldPosts ([⟨"tweet", ⟨100, [("likes", JValue.jnum 50)]⟩⟩,
        ⟨"youtube_video", ⟨300, [("likes", JValue.jnum 150)]⟩⟩,
        ⟨"pin", ⟨200, [("likes", JValue.jnum 100)]⟩⟩] : List PostPayload) "likes").validCount =
      (dimValues ([⟨"tweet", ⟨100, [("likes", JValue.jnum 50)]⟩⟩,
        ⟨"youtube_video", ⟨300, [("likes", JValue.jnum 150)]⟩⟩,
        ⟨"pin", ⟨200, [("likes", JValue.jnum 100)]⟩⟩] : List PostPayload) "likes").length ∧
    (getResult (foldPosts ([⟨"tweet", ⟨100, [("likes", JValue.jnum 50)]⟩⟩,
        ⟨"youtube_video", ⟨300, [("likes", JValue.jnum 150)]⟩⟩,
        ⟨"pin", ⟨200, [("likes", JValue.jnum 100)]⟩⟩] : List PostPayload) "likes")).average =
      if (dimValues ([⟨"tweet", ⟨100, [("likes", JValue.jnum 50)]⟩⟩,
          ⟨"youtube_video", ⟨300, [("likes", JValue.jnum 150)]⟩⟩,
          ⟨"pin", ⟨200, [("likes", JValue.jnum 100)]⟩⟩] : List PostPayload) "likes").length = 0
      then 0
      else (roundHalfFrac
        (dimValues ([⟨"tweet", ⟨100, [("likes", JValue.jnum 50)]⟩⟩,
          ⟨"youtube_video", ⟨300, [("likes", JValue.jnum 150)]⟩⟩,
          ⟨"pin", ⟨200, [("likes", JValue.jnum 100)]⟩⟩] : List PostPayload) "likes").sum
        (dimValues ([⟨"tweet", ⟨100, [("likes", JValue.jnum 50)]⟩⟩,
          ⟨"youtube_video", ⟨300, [("likes", JValue.jnum 150)]⟩⟩,
          ⟨"pin", ⟨200, [("likes", JValue.jnum 100)]⟩⟩] : List PostPayload) "likes").length : Int) :=
  c5_amended_fold_average
    ([⟨"tweet", ⟨100, [("likes", JValue.jnum 50)]⟩⟩,
      ⟨"youtube_video", ⟨300, [("likes", JValue.jnum 150)]⟩⟩,
      ⟨"pin", ⟨200, [("likes", JValue.jnum 100)]⟩⟩] : List PostPayload) "likes"
    (by decide) (by decide)

/-- C2 counterexample: the claim's success conditions hold — one root key,
an object value, a numeric `timestamp` whose integer rendering
`9223372036854775808` is strictly positive — yet parsing fails, because the
rendered value does not fit `ParseInt`'s signed 64-bit range. -/
theorem c2_counterexample :
    dedupKeys (JEntries.cons "tweet"
        (JValue.jobj
          (JEntries.cons "timestamp" (JValue.jnum 9223372036854775808) JEntries.nil))
        JEntries.nil).toList =
      [("tweet", JValue.jobj
        (JEntries.cons "timestamp" (JValue.jnum 9223372036854775808) JEntries.nil))] ∧
    lookupKey "timestamp"
        (dedupKeys
          (JEntries.cons "timestamp" (JValue.jnum 9223372036854775808) JEntries.nil).toList) =
      some (JValue.jnum 9223372036854775808) ∧
    (0 : Int) < 9223372036854775808 ∧
    unmarshalPostPayload (JValue.jobj (JEntries.cons "tweet"
        (JValue.jobj
          (JEntries.cons "timestamp" (JValue.jnum 9223372036854775808) JEntries.nil))
        JEntries.nil)) = .err "invalid timestamp format" := by
  refine ⟨rfl, rfl, by decide, ?_⟩
  rfl

/-- C2 amended: parsing a JSON object succeeds exactly when it has a single
root key whose value is an object holding a numeric `timestamp` that is
strictly positive and below `2 ^ 63`; on success, `kind` is the root key,
the timestamp is that value, and the dimension map answers exactly the
recognized dimension names present in the inner object; a root-key arity
other than one is a parse error. -/
theorem c2_amended_parser_roundtrip (fields : JEntries) :
    ((∃ p, unmarshalPostPayload (.jobj fields) = .ok p) ↔
      ∃ key inner t,
        dedupKeys fields.toList = [(key, JValue.jobj inner)] ∧
        lookupKey "timestamp" (dedupKeys inner.toList) = some (.jnum t) ∧
        0 < t ∧ t < 2 ^ 63) ∧
    (∀ key inner t,
      dedupKeys fields.toList = [(key, JValue.jobj inner)] →
      lookupKey "timestamp" (dedupKeys inner.toList) = some (.jnum t) →
      0 < t → t < 2 ^ 63 →
      ∃ p, unmarshalPostPayload (.jobj fields) = .ok p ∧
        p.type = key ∧ p.data.timestamp = t ∧
        ∀ dimension, lookupKey dimension p.data.details =
          if dimension ∈ validDimensions then lookupKey dimension (dedupKeys inner.toList)
          else none) ∧
    ((dedupKeys fields.toList).length ≠ 1 →
      ∃ msg, unmarshalPostPayload (.jobj fields) = .err msg) := by
  refine ⟨⟨?_, ?_⟩, ?_, ?_⟩
  · rintro ⟨p, hp⟩
    obtain ⟨key, inner, ts, hd, hts, hpp⟩ := (unmarshal_ok_iff fields p).mp hp
    obtain ⟨hl, hpos, hlt⟩ := (extractTimestamp_ok_iff _ ts).mp hts
    exact ⟨key, inner, ts, hd, hl, hpos, hlt⟩
  · rintro ⟨key, inner, t, hd, hl, hpos, hlt⟩
    exact ⟨⟨key, ⟨t, dimFilter (dedupKeys inner.toList)⟩⟩,
      (unmarshal_ok_iff fields _).mpr ⟨key, inner, t, hd,
        (extractTimestamp_ok_iff _ t).mpr ⟨hl, hpos, hlt⟩, rfl⟩⟩
  · intro key inner t hd hl hpos hlt
    refine ⟨⟨key, ⟨t, dimFilter (dedupKeys inner.toList)⟩⟩, ?_, rfl, rfl, ?_⟩
    · exact (unmarshal_ok_iff fields _).mpr ⟨key, inner, t, hd,
        (extractTimestamp_ok_iff _ t).mpr ⟨hl, hpos, hlt⟩, rfl⟩
    · intro dimension
      exact lookupKey_dimFilter (dedupKeys inner.toList) dimension
  · intro hlen
    exact ⟨_, unmarshal_err_of_not_single fields hlen⟩

theorem c2_amended_witness :
    ∃ p, unmarshalPostPayload (JValue.jobj (JEntries.cons "tweet"
        (JValue.jobj (JEntries.cons "timestamp" (JValue.jnum 1633974046)
          (JEntries.cons "likes" (JValue.jnum 386963)
            (JEntries.cons "junk" (JValue.jstr "dropped") JEntries.nil))))
        JEntries.nil)) = .ok p ∧
      p.type = "tweet" ∧ p.data.timestamp = 1633974046 ∧
      ∀ dimension, lookupKey dimension p.data.details =
        if dimension ∈ validDimensions then
          lookupKey dimension
            (dedupKeys (JEntries.cons "timestamp" (JValue.jnum 1633974046)
              (JEntries.cons "likes" (JValue.jnum 386963)
                (JEntries.cons "junk" (JValue.jstr "dropped") JEntries.nil))).toList)
        else none :=
  (c2_amended_parser_roundtrip (JEntries.cons "tweet"
      (JValue.jobj (JEntries.cons "timestamp" (JValue.jnum 1633974046)
        (JEntries.cons "likes" (JValue.jnum 386963)
          (JEntries.cons "junk" (JValue.jstr "dropped") JEntries.nil))))
      JEntries.nil)).2.1
    "tweet"
    (JEntries.cons "timestamp" (JValue.jnum 1633974046)
      (JEntries.cons "likes" (JValue.jnum 386963)
        (JEntries.cons "junk" (JValue.jstr "dropped") JEntries.nil)))
    1633974046 rfl rfl (by decide) (by decide)

/-- C4: the claim promises a ParseError and a total, crash-free parser for
a present-but-non-numeric `timestamp`; the code instead panics there via
the unchecked type assertion `tsRaw.(float64)`. An absent timestamp and a
non-positive numeric timestamp do return errors, but a JSON-string
timestamp drives the parser into the panic outcome. -/
theorem c4_string_timestamp_panics :
    unmarshalPostPayload (JValue.jobj (JEntries.cons "tweet"
        (JValue.jobj (JEntries.cons "timestamp" (JValue.jstr "1633974046") JEntries.nil))
        JEntries.nil)) = .panicked ∧
    unmarshalPostPayload (JValue.jobj (JEntries.cons "tweet"
        (JValue.jobj JEntries.nil) JEntries.nil)) = .err "missing timestamp field" ∧
    unmarshalPostPayload (JValue.jobj (JEntries.cons "tweet"
        (JValue.jobj (JEntries.cons "timestamp" (JValue.jnum 0) JEntries.nil))
        JEntries.nil)) = .err "timestamp must be positive" := by
  refine ⟨rfl, rfl, rfl⟩
